import Mathlib

/-!
Verification development for the media transformation pipeline of this
repository.  The two programs under study are the video splitter
(`video_splitter.py`: scan a folder recursively, split every video file
larger than a size threshold into two stream-copied parts, archive the
original) and the video enhancer (`enhance_video.py`: build a filter
chain, run the external transcoder over each video in a folder).

The embedding models the filesystem as a finite association list of file
paths to sizes (plus a list of directories), and models each external
process invocation (probe, transcoder run, directory creation, move)
through an oracle structure supplying the outcome of that invocation.
Python exceptions are modelled with `Except`: the value carried by
`.error` is the filesystem state at the moment the uncaught exception is
raised.  Machine floats appear only in the size computation
`size_bytes / (1024*1024)`; division of an integer below 2^53 by 2^20 is
exact in IEEE double precision, so the computation is modelled exactly
over `ℚ`.
-/

set_option maxHeartbeats 1000000

/-- Paths are lists of name components, from the scan root downwards. -/
abbrev FPath := List String

/-- Strict-descendant test: `pathUnder r p` holds when `r` is a proper
prefix of `p`, i.e. `p` is reached by a recursive walk rooted at `r`. -/
def pathUnder : FPath → FPath → Bool
  | [], q => !q.isEmpty
  | _ :: _, [] => false
  | a :: r, b :: q => a == b && pathUnder r q

/-- Final component of a path (the file name), `""` for the empty path. -/
def nameOf (p : FPath) : String := p.getLastD ""

/-- Directory part of a path (all components but the last), as Python
`Path.parent` for a relative child path. -/
def dirOf (p : FPath) : FPath := p.dropLast

/-- Python `Path.stem` and `Path.suffix` computed together: the name is
split at the last dot provided that dot is neither the first nor the
last character; otherwise the stem is the whole name and the suffix is
empty. -/
def pyStemSuffix (name : String) : String × String :=
  match name.toList.reverse.findIdx? (fun c => c == '.') with
  | none => (name, "")
  | some r =>
    if 0 < name.toList.length - 1 - r ∧ name.toList.length - 1 - r + 1 < name.toList.length then
      (String.mk (name.toList.take (name.toList.length - 1 - r)),
       String.mk (name.toList.drop (name.toList.length - 1 - r)))
    else (name, "")

/-- The filesystem: regular files with their byte sizes, and directories. -/
structure FS where
  files : List (FPath × Nat)
  dirs : List FPath
deriving DecidableEq

/-- Size in bytes of the file at `p`, `none` when no such file exists
(Python `stat` raising `FileNotFoundError`). -/
def FS.sizeOnDisk? (fs : FS) (p : FPath) : Option Nat :=
  (fs.files.find? (fun e => e.1 == p)).map Prod.snd

/-- Does a regular file exist at `p`? -/
def FS.isFile (fs : FS) (p : FPath) : Bool := (fs.sizeOnDisk? p).isSome

/-- Does a directory exist at `p`? -/
def FS.isDir (fs : FS) (p : FPath) : Bool := fs.dirs.contains p

/-- Python `Path.exists`: a file or a directory is present at `p`. -/
def FS.pathExists (fs : FS) (p : FPath) : Bool := fs.isFile p || fs.isDir p

/-- Create or overwrite the file at `p` with `n` bytes (the transcoder is
run with the overwrite flag). -/
def FS.writeFile (fs : FS) (p : FPath) (n : Nat) : FS :=
  { fs with files := (p, n) :: fs.files.filter (fun e => !(e.1 == p)) }

/-- Python `Path.unlink`: remove the file at `p`. -/
def FS.unlink (fs : FS) (p : FPath) : FS :=
  { fs with files := fs.files.filter (fun e => !(e.1 == p)) }

/-- Python `mkdir(exist_ok=True)` on a path with no file in the way. -/
def FS.mkdir (fs : FS) (p : FPath) : FS :=
  if fs.dirs.contains p then fs else { fs with dirs := p :: fs.dirs }

/-- `shutil.move` of a regular file to a fresh destination path: the
source entry is removed and its content appears at the destination. -/
def FS.move (fs : FS) (src dst : FPath) : FS :=
  match fs.sizeOnDisk? src with
  | some sz => (fs.unlink src).writeFile dst sz
  | none => fs

/-- Python exception classes that matter to the control flow of the
splitter: `subprocess.CalledProcessError` (caught by the split handler)
and the `OSError` family (never caught). -/
inductive PyErr
  | calledProcessError
  | osError
deriving DecidableEq

/-- Boolean success test for an `Except` value. -/
def exceptOk {ε α : Type} : Except ε α → Bool
  | .ok _ => true
  | .error _ => false

/-- The filesystem carried by a run result, whether it ended normally or
with an uncaught exception. -/
def fsOfResult : Except (PyErr × FS) FS → FS
  | .ok fs => fs
  | .error e => e.2

/-- Python `str.lower` restricted to its ASCII action, which is all the
video-extension allowlist can distinguish. -/
def pyLower (s : String) : String := String.mk (s.toList.map Char.toLower)

namespace VideoSplitter

/-- Source constant `SIZE_LIMIT_MB = 200`. -/
def SIZE_LIMIT_MB : ℚ := 200

/-- Source constant `ARCHIVE_FOLDER_NAME`. -/
def ARCHIVE_FOLDER_NAME : String := "原檔_超過200MB"

/-- Source constant `VIDEO_EXTENSIONS`. -/
def VIDEO_EXTENSIONS : List String :=
  [".mp4", ".avi", ".mov", ".mkv", ".wmv", ".flv", ".webm", ".m4v"]

/-- Source `get_file_size_mb`: byte size divided by `1024 * 1024`.  The
Python float division of a file size (`< 2^53`) by `2^20` is exact, so
`ℚ` models it without error. -/
def get_file_size_mb (sizeBytes : Nat) : ℚ := (sizeBytes : ℚ) / (1024 * 1024)

/-- Extension test of the scan: `file_path.suffix.lower() in
VIDEO_EXTENSIONS`. -/
def isVideoFile (name : String) : Bool :=
  VIDEO_EXTENSIONS.contains (pyLower (pyStemSuffix name).2)

/-- Outcome of the `ffprobe` duration query: a parsed float, or failure
(`CalledProcessError` from a non-zero exit, or `ValueError` from
unparseable output). -/
inductive ProbeResult
  | value (d : ℚ)
  | failure

/-- Outcome of one `ffmpeg` trim-and-copy invocation: its exit status,
and the file it left at the output path (`none` when it wrote nothing;
a failing run may still leave a partial file, which is why the source
cleans both paths up). -/
structure TranscodeResult where
  ok : Bool
  written : Option Nat

/-- Oracle supplying the outcome of every external invocation of one
splitter run, keyed by the source file being processed. -/
structure SplitWorld where
  probe : FPath → ProbeResult
  exec1 : FPath → TranscodeResult
  exec2 : FPath → TranscodeResult
  mkdirOk : FPath → Bool
  moveOk : FPath → Bool

/-- Source `get_video_duration`: the parsed float on success, `0` on
`CalledProcessError` or `ValueError`. -/
def get_video_duration (w : SplitWorld) (fp : FPath) : ℚ :=
  match w.probe fp with
  | .value d => d
  | .failure => 0

/-- Output path `output_dir / (stem + "_part1" + suffix)` with
`output_dir` defaulted to `file_path.parent`. -/
def part1Path (fp : FPath) : FPath :=
  dirOf fp ++ [(pyStemSuffix (nameOf fp)).1 ++ "_part1" ++ (pyStemSuffix (nameOf fp)).2]

/-- Output path `output_dir / (stem + "_part2" + suffix)`. -/
def part2Path (fp : FPath) : FPath :=
  dirOf fp ++ [(pyStemSuffix (nameOf fp)).1 ++ "_part2" ++ (pyStemSuffix (nameOf fp)).2]

/-- The sibling archive folder `file_path.parent / ARCHIVE_FOLDER_NAME`. -/
def archiveDirPath (fp : FPath) : FPath := dirOf fp ++ [ARCHIVE_FOLDER_NAME]

/-- The archived location `archive_folder / file_path.name` of the
original. -/
def archivePath (fp : FPath) : FPath := archiveDirPath fp ++ [nameOf fp]

/-- The filesystem after one transcoder invocation with output path `p`:
the file the invocation deposited there, if any, overwrites the path
(`ffmpeg` runs with `-y`). -/
def afterExec (fs : FS) (p : FPath) (r : TranscodeResult) : FS :=
  match r.written with
  | some n => fs.writeFile p n
  | none => fs

/-- One guarded deletion `if path.exists(): path.unlink()` of the
`except CalledProcessError` handler of `split_video`. -/
def unlinkIfExists (fs : FS) (p : FPath) : FS :=
  if fs.isFile p then fs.unlink p else fs

/-- Body of the `except CalledProcessError` handler of `split_video`:
delete each of the two part paths that exists. -/
def cleanupParts (fs : FS) (p1 p2 : FPath) : FS :=
  unlinkIfExists (unlinkIfExists fs p1) p2

/-- Source `split_video`, with `output_dir` at its default.  Control
flow: a non-positive probed duration returns `False` before any
invocation; each `ffmpeg` run may deposit a file at its part path and a
non-zero exit raises `CalledProcessError`, caught by the handler that
deletes both part paths and returns `False`; after two successful runs
the part sizes are read (a missing part raises `FileNotFoundError`,
which the handler does not catch), the archive folder is created and
the original moved into it — `mkdir` and `shutil.move` raise `OSError`
on failure, which the handler does not catch either, so those errors
escape the function. -/
def split_video (w : SplitWorld) (fs : FS) (fp : FPath) :
    Except (PyErr × FS) (FS × Bool) :=
  let duration := get_video_duration w fp
  if duration ≤ 0 then .ok (fs, false)
  else
    let p1 := part1Path fp
    let p2 := part2Path fp
    let r1 := w.exec1 fp
    let fs1 := afterExec fs p1 r1
    if r1.ok = false then .ok (cleanupParts fs1 p1 p2, false)
    else
      let r2 := w.exec2 fp
      let fs2 := afterExec fs1 p2 r2
      if r2.ok = false then .ok (cleanupParts fs2 p1 p2, false)
      else if ((fs2.sizeOnDisk? p1).isSome && (fs2.sizeOnDisk? p2).isSome) = false then
        .error (.osError, fs2)
      else if w.mkdirOk fp = false then .error (.osError, fs2)
      else
        let fs3 := fs2.mkdir (archiveDirPath fp)
        if w.moveOk fp = false then .error (.osError, fs3)
        else if (fs3.sizeOnDisk? fp).isSome = false then .error (.osError, fs3)
        else .ok (fs3.move fp (archivePath fp), true)

/-- The candidate loop of `scan_and_split`: over the recursive walk, keep
the regular files whose lowercased extension is in the allowlist and
whose size in MB exceeds the limit, pairing each with that size. -/
def scanVideos (folder : FPath) (limit : ℚ) : List (FPath × Nat) → List (FPath × ℚ)
  | [] => []
  | e :: rest =>
    if (pathUnder folder e.1 && isVideoFile (nameOf e.1)) = true ∧
        get_file_size_mb e.2 > limit then
      (e.1, get_file_size_mb e.2) :: scanVideos folder limit rest
    else scanVideos folder limit rest

/-- The fully materialised candidate list `large_videos` of one run:
`scanVideos` applied to every regular file of the filesystem (the
recursive `rglob('*')` walk reaches them all; directories fail the
`is_file` test). -/
def scanCandidates (fs : FS) (folder : FPath) (limit : ℚ) : List (FPath × ℚ) :=
  scanVideos folder limit fs.files

/-- The processing loop of `scan_and_split`: each candidate is handed to
`split_video`; a `False` result only prints a skip note, while an
uncaught exception aborts the whole loop. -/
def processAll (w : SplitWorld) : FS → List (FPath × ℚ) → Except (PyErr × FS) FS
  | fs, [] => .ok fs
  | fs, (fp, _) :: rest =>
    match split_video w fs fp with
    | .ok (fs', _) => processAll w fs' rest
    | .error e => .error e

/-- Source `scan_and_split`: return early when the folder does not
exist, otherwise materialise the candidate list from the current
filesystem and process it. -/
def scan_and_split (w : SplitWorld) (fs : FS) (folder : FPath) (limit : ℚ) :
    Except (PyErr × FS) FS :=
  if fs.pathExists folder = false then .ok fs
  else processAll w fs (scanCandidates fs folder limit)

/-- Source `main` of the splitter: `sys.exit(1)` when `ffmpeg` is
missing; otherwise run `scan_and_split` — a normal return exits the
process with code `0`, an uncaught exception makes the interpreter exit
with code `1`. -/
def main (ffmpegOk : Bool) (w : SplitWorld) (fs : FS) (target : FPath) : Nat :=
  if ffmpegOk = false then 1
  else
    match scan_and_split w fs target SIZE_LIMIT_MB with
    | .ok _ => 0
    | .error _ => 1

end VideoSplitter

namespace EnhanceVideo

/-- Modelled from the spec: the configuration surface loaded from the
`config` module, which is not among the source files; field names
follow the import list of `enhance_video.py`, restricted to the fields
the modelled functions read.  Numeric sharpen/denoise parameters are
carried as the strings their Python f-string interpolation renders to.
Codec/preset/bitrate fields only feed the command line and are not
modelled. -/
structure Config where
  INPUT_FOLDER : FPath
  OUTPUT_FOLDER : FPath
  TARGET_WIDTH : Nat
  TARGET_HEIGHT : Nat
  SCALE_ALGORITHM : String
  SHARPEN_AMOUNT : String
  SHARPEN_LUMA_X : String
  SHARPEN_LUMA_Y : String
  ENABLE_DENOISE : Bool
  DENOISE_LUMA_STRENGTH : String
  DENOISE_CHROMA_STRENGTH : String
  VIDEO_EXTENSIONS : List String
  OUTPUT_SUFFIX : String
  OUTPUT_FORMAT : String

/-- Source `build_filter_chain`: scale stage, sharpen stage with the
chroma amount written as the literal `0`, then the optional denoise
stage with the luma/chroma pair duplicated, joined with `,`. -/
def build_filter_chain (cfg : Config) : String :=
  let scale_filter :=
    "scale=" ++ toString cfg.TARGET_WIDTH ++ ":" ++ toString cfg.TARGET_HEIGHT ++
      ":flags=" ++ cfg.SCALE_ALGORITHM
  let sharpen_filter :=
    "unsharp=" ++ cfg.SHARPEN_LUMA_X ++ ":" ++ cfg.SHARPEN_LUMA_Y ++ ":" ++
      cfg.SHARPEN_AMOUNT ++ ":" ++ cfg.SHARPEN_LUMA_X ++ ":" ++ cfg.SHARPEN_LUMA_Y ++ ":0"
  let base := [scale_filter, sharpen_filter]
  let filters :=
    if cfg.ENABLE_DENOISE then
      base ++ ["hqdn3d=" ++ cfg.DENOISE_LUMA_STRENGTH ++ ":" ++ cfg.DENOISE_CHROMA_STRENGTH ++
        ":" ++ cfg.DENOISE_LUMA_STRENGTH ++ ":" ++ cfg.DENOISE_CHROMA_STRENGTH]
    else base
  String.intercalate "," filters

/-- Captured result of the transcoder process: `returncode` and the
captured standard-error text as a character sequence. -/
structure ProcResult where
  returncode : Int
  stderr : List Char

/-- Oracle supplying, per input file, the transcoder outcome and the
file (if any) the transcoder left at the job's output path. -/
structure EnhanceWorld where
  proc : FPath → ProcResult
  written : FPath → Option Nat

/-- The diagnostic printed on a non-zero exit:
`process.stderr[-500:] if len(process.stderr) > 500 else process.stderr`. -/
def stderrShown (s : List Char) : List Char :=
  if s.length > 500 then s.drop (s.length - 500) else s

/-- Source `enhance_video`: run the transcoder (which may deposit a file
at the output path regardless of its exit status), succeed exactly on
`returncode == 0`, and on failure print the stderr tail.  No branch
deletes anything. -/
def enhance_video (w : EnhanceWorld) (fs : FS) (input output : FPath) :
    FS × Bool × Option (List Char) :=
  let fs1 := match w.written input with
    | some n => fs.writeFile output n
    | none => fs
  let r := w.proc input
  if r.returncode = 0 then (fs1, true, none)
  else (fs1, false, some (stderrShown r.stderr))

/-- Source `get_output_filename`: `OUTPUT_FOLDER / (stem + OUTPUT_SUFFIX
+ ext)` where `ext` is `OUTPUT_FORMAT` when that string is truthy
(non-empty) and the input's suffix otherwise. -/
def get_output_filename (cfg : Config) (input : FPath) : FPath :=
  let stem := (pyStemSuffix (nameOf input)).1
  let ext := if cfg.OUTPUT_FORMAT.isEmpty then (pyStemSuffix (nameOf input)).2
    else cfg.OUTPUT_FORMAT
  cfg.OUTPUT_FOLDER ++ [stem ++ cfg.OUTPUT_SUFFIX ++ ext]

/-- The candidate loop of `scan_and_enhance`: immediate children of the
input folder that are regular files with an allowlisted extension. -/
def listVideos (cfg : Config) : List (FPath × Nat) → List FPath
  | [] => []
  | e :: rest =>
    if (decide (dirOf e.1 = cfg.INPUT_FOLDER) &&
        cfg.VIDEO_EXTENSIONS.contains (pyLower (pyStemSuffix (nameOf e.1)).2)) = true then
      e.1 :: listVideos cfg rest
    else listVideos cfg rest

/-- The processing loop of `scan_and_enhance`, returning the filesystem
and the pair `(success_count, fail_count)`. -/
def processVideos (cfg : Config) (w : EnhanceWorld) : FS → List FPath → FS × Nat × Nat
  | fs, [] => (fs, 0, 0)
  | fs, v :: rest =>
    let out := get_output_filename cfg v
    let step := enhance_video w fs v out
    let next := processVideos cfg w step.1 rest
    if step.2.1 = true then (next.1, next.2.1 + 1, next.2.2)
    else (next.1, next.2.1, next.2.2 + 1)

/-- Source `scan_and_enhance`: when the input folder is missing, create
it and return; otherwise create the output folder, list the videos and
process them. -/
def scan_and_enhance (cfg : Config) (w : EnhanceWorld) (fs : FS) : FS × Nat × Nat :=
  if fs.pathExists cfg.INPUT_FOLDER = false then (fs.mkdir cfg.INPUT_FOLDER, 0, 0)
  else
    let fs1 := fs.mkdir cfg.OUTPUT_FOLDER
    processVideos cfg w fs1 (listVideos cfg fs1.files)

/-- Source `main` of the enhancer: `sys.exit(1)` when `ffmpeg` is
missing, otherwise run `scan_and_enhance` and exit `0` — per-file
failures only change the printed tallies. -/
def main (ffmpegOk : Bool) (cfg : Config) (w : EnhanceWorld) (fs : FS) : Nat :=
  if ffmpegOk = false then 1
  else
    let _ := scan_and_enhance cfg w fs
    0

end EnhanceVideo

/-! Concrete scenarios used by witnesses and counterexamples. -/

namespace VideoSplitter

/-- Scenario for C1: one 300 MiB video; the first trim invocation exits
non-zero after leaving a 5 MiB partial file. -/
def c1World : SplitWorld :=
  ⟨fun _ => .value 100, fun _ => ⟨false, some 5242880⟩, fun _ => ⟨true, none⟩,
   fun _ => true, fun _ => true⟩

/-- Initial filesystem for C1. -/
def c1FS : FS := ⟨[(["root", "a.mp4"], 314572800)], [["root"]]⟩

/-- Scenario for C2: one 300 MiB video, both trims succeed with 150 MiB
parts, archival succeeds. -/
def c2World : SplitWorld :=
  ⟨fun _ => .value 100, fun _ => ⟨true, some 157286400⟩, fun _ => ⟨true, some 157286400⟩,
   fun _ => true, fun _ => true⟩

/-- Initial filesystem for C2. -/
def c2FS : FS := ⟨[(["root", "a.mp4"], 314572800)], [["root"]]⟩

/-- The filesystem after the successful C2 split run. -/
def c2FSAfter : FS :=
  ⟨[(["root", "原檔_超過200MB", "a.mp4"], 314572800),
    (["root", "a_part2.mp4"], 157286400),
    (["root", "a_part1.mp4"], 157286400)],
   [["root", "原檔_超過200MB"], ["root"]]⟩

/-- Scenario for C3: the duration probe fails. -/
def c3World : SplitWorld :=
  ⟨fun _ => .failure, fun _ => ⟨true, none⟩, fun _ => ⟨true, none⟩,
   fun _ => true, fun _ => true⟩

/-- Initial filesystem for C3. -/
def c3FS : FS := ⟨[(["root", "a.mp4"], 314572800)], [["root"]]⟩

/-- Scenario for C4: two 300 MiB videos; both trims succeed with 10 MiB
parts but the archive folder cannot be created. -/
def c4World : SplitWorld :=
  ⟨fun _ => .value 100, fun _ => ⟨true, some 10485760⟩, fun _ => ⟨true, some 10485760⟩,
   fun _ => false, fun _ => true⟩

/-- Initial filesystem for C4. -/
def c4FS : FS :=
  ⟨[(["root", "a.mp4"], 314572800), (["root", "b.mp4"], 314572800)], [["root"]]⟩

/-- The filesystem carried by the uncaught archival error of the C4 run. -/
def c4FSErr : FS :=
  ⟨[(["root", "a_part2.mp4"], 10485760), (["root", "a_part1.mp4"], 10485760),
    (["root", "a.mp4"], 314572800), (["root", "b.mp4"], 314572800)], [["root"]]⟩

/-- Scenario for C7: any world; the scan target does not exist. -/
def c7World : SplitWorld :=
  ⟨fun _ => .value 1, fun _ => ⟨true, none⟩, fun _ => ⟨true, none⟩,
   fun _ => true, fun _ => true⟩

/-- Initial filesystem for C7: empty, in particular no `["root"]`. -/
def c7FS : FS := ⟨[], []⟩

/-- Initial filesystem for C10's witness. -/
def c10FS : FS := ⟨[(["root", "a.mp4"], 314572800)], [["root"]]⟩

end VideoSplitter

namespace EnhanceVideo

/-- Scenario for C6's witness: the transcoder exits with code 1 and a
short diagnostic. -/
def c6World : EnhanceWorld := ⟨fun _ => ⟨1, ['e', 'r', 'r']⟩, fun _ => some 10⟩

/-- Initial filesystem for C6's witness. -/
def c6FS : FS := ⟨[], []⟩

/-- Configuration for the C7 enhance-side witness and the C9 scenario. -/
def c9Cfg : Config :=
  ⟨["in"], ["out"], 1920, 1080, "lanczos", "1.0", "5", "5", false, "3", "2",
   [".mp4"], "_enhanced", ""⟩

/-- Scenario for C9: the transcoder fails with exit code 1 after leaving
a partial output file. -/
def c9World : EnhanceWorld := ⟨fun _ => ⟨1, ['b', 'a', 'd']⟩, fun _ => some 12345⟩

/-- Initial filesystem for C9: one video in the input folder. -/
def c9FS : FS := ⟨[(["in", "a.mp4"], 100)], [["in"]]⟩

/-- Configuration for the C7 enhance-side witness. -/
def c7Cfg : Config :=
  ⟨["in"], ["out"], 1920, 1080, "lanczos", "1.0", "5", "5", false, "3", "2",
   [".mp4"], "_enhanced", ""⟩

/-- World for the C7 enhance-side witness. -/
def c7EnhWorld : EnhanceWorld := ⟨fun _ => ⟨0, []⟩, fun _ => some 1⟩

/-- Initial filesystem for the C7 enhance-side witness. -/
def c7EnhFS : FS := ⟨[], [["in"]]⟩

end EnhanceVideo

/-! Helper lemmas about paths, names and the filesystem model. -/

theorem pathUnder_nil (r : FPath) : pathUnder r [] = false := by
  cases r <;> simp [pathUnder, List.isEmpty]

theorem pathUnder_snoc_extend {r : FPath} :
    ∀ {d : FPath} {x : String} (l : FPath), l ≠ [] →
      pathUnder r (d ++ [x]) = true → pathUnder r (d ++ l) = true := by
  induction r with
  | nil =>
    intro d x l hl _
    simp only [pathUnder]
    cases d <;> cases l <;> simp_all [List.isEmpty]
  | cons a r ih =>
    intro d x l hl h
    cases d with
    | nil =>
      exfalso
      simp only [List.nil_append, pathUnder] at h
      rcases r with _ | ⟨b, r'⟩
      · simp [pathUnder] at h
      · simp [pathUnder] at h
    | cons b d' =>
      simp only [List.cons_append, pathUnder, Bool.and_eq_true] at h ⊢
      exact ⟨h.1, ih l hl h.2⟩

theorem path_decomp {p : FPath} (h : p ≠ []) : dirOf p ++ [nameOf p] = p := by
  have h1 : nameOf p = p.getLast h := by
    unfold nameOf
    rw [List.getLastD_eq_getLast? , List.getLast?_eq_getLast p h]
    rfl
  rw [h1]
  exact List.dropLast_append_getLast h

theorem nameOf_snoc (d : FPath) (x : String) : nameOf (d ++ [x]) = x := by
  unfold nameOf
  exact List.getLastD_concat _ _ _

theorem data_append (s t : String) : (s ++ t).data = s.data ++ t.data := by
  simp [String.data_append]

theorem pyStemSuffix_append (name : String) :
    (pyStemSuffix name).1 ++ (pyStemSuffix name).2 = name := by
  apply String.ext
  rw [data_append]
  unfold pyStemSuffix
  split
  · simp
  · split
    · show name.toList.take _ ++ name.toList.drop _ = name.data
      rw [List.take_append_drop]
      rfl
    · simp

theorem part_tag_ne (name tag : String) (ht : tag.length ≠ 0) :
    (pyStemSuffix name).1 ++ tag ++ (pyStemSuffix name).2 ≠ name := by
  intro h
  have hlen := congrArg String.length h
  have hsum := congrArg String.length (pyStemSuffix_append name)
  rw [String.length_append, String.length_append] at hlen
  rw [String.length_append] at hsum
  omega

namespace VideoSplitter

theorem part1Path_ne_self (fp : FPath) : part1Path fp ≠ fp := by
  intro h
  rcases eq_or_ne fp [] with hfp | hfp
  · rw [hfp] at h
    simp [part1Path, dirOf] at h
  · unfold part1Path at h
    conv_rhs at h => rw [← path_decomp hfp]
    have := List.append_cancel_left h
    have hx : (pyStemSuffix (nameOf fp)).1 ++ "_part1" ++ (pyStemSuffix (nameOf fp)).2 =
        nameOf fp := by injection this
    exact part_tag_ne (nameOf fp) "_part1" (by decide) hx

theorem part2Path_ne_self (fp : FPath) : part2Path fp ≠ fp := by
  intro h
  rcases eq_or_ne fp [] with hfp | hfp
  · rw [hfp] at h
    simp [part2Path, dirOf] at h
  · unfold part2Path at h
    conv_rhs at h => rw [← path_decomp hfp]
    have := List.append_cancel_left h
    have hx : (pyStemSuffix (nameOf fp)).1 ++ "_part2" ++ (pyStemSuffix (nameOf fp)).2 =
        nameOf fp := by injection this
    exact part_tag_ne (nameOf fp) "_part2" (by decide) hx

theorem part1Path_ne_part2Path (fp : FPath) : part1Path fp ≠ part2Path fp := by
  intro h
  unfold part1Path part2Path at h
  have h2 := List.append_cancel_left h
  have h3 : (pyStemSuffix (nameOf fp)).1 ++ "_part1" ++ (pyStemSuffix (nameOf fp)).2 =
      (pyStemSuffix (nameOf fp)).1 ++ "_part2" ++ (pyStemSuffix (nameOf fp)).2 := by
    injection h2
  have h4 := congrArg String.data h3
  rw [data_append, data_append, data_append, data_append, List.append_assoc,
    List.append_assoc] at h4
  have h5 := List.append_cancel_left h4
  simp at h5

theorem length_part1Path (fp : FPath) : (part1Path fp).length = fp.length - 1 + 1 := by
  simp [part1Path, dirOf, List.length_append, List.length_dropLast]

theorem length_part2Path (fp : FPath) : (part2Path fp).length = fp.length - 1 + 1 := by
  simp [part2Path, dirOf, List.length_append, List.length_dropLast]

theorem length_archivePath (fp : FPath) : (archivePath fp).length = fp.length - 1 + 2 := by
  simp [archivePath, archiveDirPath, dirOf, List.length_append, List.length_dropLast]

theorem archivePath_ne_self (fp : FPath) : archivePath fp ≠ fp := by
  intro h
  have h2 := congrArg List.length h
  rw [length_archivePath] at h2
  omega

theorem archivePath_ne_part1 (fp : FPath) : archivePath fp ≠ part1Path fp := by
  intro h
  have h2 := congrArg List.length h
  rw [length_archivePath, length_part1Path] at h2
  omega

theorem archivePath_ne_part2 (fp : FPath) : archivePath fp ≠ part2Path fp := by
  intro h
  have h2 := congrArg List.length h
  rw [length_archivePath, length_part2Path] at h2
  omega

end VideoSplitter

theorem mapIsSome {α β : Type} (f : α → β) (o : Option α) : (o.map f).isSome = o.isSome := by
  cases o <;> rfl

theorem FS.isFile_iff_exists (fs : FS) (p : FPath) :
    fs.isFile p = true ↔ ∃ n, (p, n) ∈ fs.files := by
  unfold FS.isFile FS.sizeOnDisk?
  rw [mapIsSome, List.find?_isSome]
  constructor
  · rintro ⟨⟨q, n⟩, hmem, hq⟩
    simp only [beq_iff_eq] at hq
    exact ⟨n, by rwa [← hq]⟩
  · rintro ⟨n, hmem⟩
    exact ⟨(p, n), hmem, by simp⟩

theorem FS.mem_writeFile_iff (fs : FS) (p : FPath) (n : Nat) (q : FPath) (m : Nat) :
    (q, m) ∈ (fs.writeFile p n).files ↔ (q = p ∧ m = n) ∨ ((q, m) ∈ fs.files ∧ q ≠ p) := by
  simp [FS.writeFile, List.mem_filter, Prod.ext_iff, and_comm]

theorem FS.mem_unlink_iff (fs : FS) (p : FPath) (q : FPath) (m : Nat) :
    (q, m) ∈ (fs.unlink p).files ↔ (q, m) ∈ fs.files ∧ q ≠ p := by
  simp [FS.unlink, List.mem_filter]

theorem FS.files_mkdir (fs : FS) (p : FPath) : (fs.mkdir p).files = fs.files := by
  unfold FS.mkdir
  split <;> rfl

theorem FS.isFile_mkdir (fs : FS) (p q : FPath) : (fs.mkdir p).isFile q = fs.isFile q := by
  unfold FS.isFile FS.sizeOnDisk?
  rw [FS.files_mkdir]

theorem FS.sizeOnDisk?_mkdir (fs : FS) (p q : FPath) :
    (fs.mkdir p).sizeOnDisk? q = fs.sizeOnDisk? q := by
  unfold FS.sizeOnDisk?
  rw [FS.files_mkdir]

theorem FS.isFile_writeFile_self (fs : FS) (p : FPath) (n : Nat) :
    (fs.writeFile p n).isFile p = true := by
  rw [FS.isFile_iff_exists]
  exact ⟨n, by simp [FS.writeFile]⟩

theorem FS.sizeOnDisk?_writeFile_self (fs : FS) (p : FPath) (n : Nat) :
    (fs.writeFile p n).sizeOnDisk? p = some n := by
  simp [FS.sizeOnDisk?, FS.writeFile, List.find?]

theorem FS.isFile_writeFile_ne (fs : FS) (p : FPath) (n : Nat) (q : FPath) (h : q ≠ p) :
    (fs.writeFile p n).isFile q = fs.isFile q := by
  rw [Bool.eq_iff_iff, FS.isFile_iff_exists, FS.isFile_iff_exists]
  constructor
  · rintro ⟨m, hm⟩
    rw [FS.mem_writeFile_iff] at hm
    rcases hm with ⟨hq, _⟩ | ⟨hm, _⟩
    · exact absurd hq h
    · exact ⟨m, hm⟩
  · rintro ⟨m, hm⟩
    exact ⟨m, (FS.mem_writeFile_iff fs p n q m).mpr (Or.inr ⟨hm, h⟩)⟩

theorem FS.isFile_unlink_self (fs : FS) (p : FPath) :
    (fs.unlink p).isFile p = false := by
  rw [Bool.eq_false_iff]
  intro h
  rw [FS.isFile_iff_exists] at h
  rcases h with ⟨m, hm⟩
  rw [FS.mem_unlink_iff] at hm
  exact hm.2 rfl

theorem FS.isFile_unlink_ne (fs : FS) (p : FPath) (q : FPath) (h : q ≠ p) :
    (fs.unlink p).isFile q = fs.isFile q := by
  rw [Bool.eq_iff_iff, FS.isFile_iff_exists, FS.isFile_iff_exists]
  constructor
  · rintro ⟨m, hm⟩
    exact ⟨m, ((FS.mem_unlink_iff fs p q m).mp hm).1⟩
  · rintro ⟨m, hm⟩
    exact ⟨m, (FS.mem_unlink_iff fs p q m).mpr ⟨hm, h⟩⟩

theorem FS.isFile_unlink_of_eq_false (fs : FS) (p q : FPath) (h : fs.isFile q = false) :
    (fs.unlink p).isFile q = false := by
  rcases eq_or_ne q p with hq | hq
  · rw [hq]
    exact fs.isFile_unlink_self p
  · rw [fs.isFile_unlink_ne p q hq]
    exact h

theorem FS.move_eq (fs : FS) (src dst : FPath) (sz : Nat)
    (h : fs.sizeOnDisk? src = some sz) :
    fs.move src dst = (fs.unlink src).writeFile dst sz := by
  unfold FS.move
  rw [h]

namespace VideoSplitter

theorem afterExec_isFile_ne (fs : FS) (p : FPath) (r : TranscodeResult) (q : FPath)
    (h : q ≠ p) : (afterExec fs p r).isFile q = fs.isFile q := by
  unfold afterExec
  cases r.written with
  | some n => exact FS.isFile_writeFile_ne _ _ _ _ h
  | none => rfl

theorem afterExec_isFile_written (fs : FS) (p : FPath) (r : TranscodeResult) (n : Nat)
    (h : r.written = some n) : (afterExec fs p r).isFile p = true := by
  unfold afterExec
  rw [h]
  exact FS.isFile_writeFile_self _ _ _

theorem afterExec_isSome_written (fs : FS) (p : FPath) (r : TranscodeResult) (n : Nat)
    (h : r.written = some n) : (afterExec fs p r).sizeOnDisk? p = some n := by
  unfold afterExec
  rw [h]
  exact FS.sizeOnDisk?_writeFile_self _ _ _

theorem find?_filter_ne (l : List (FPath × Nat)) (p q : FPath) (h : q ≠ p) :
    List.find? (fun e => e.1 == q) (List.filter (fun e => !(e.1 == p)) l) =
      List.find? (fun e => e.1 == q) l := by
  induction l with
  | nil => rfl
  | cons x xs ih =>
    by_cases hx : x.1 = p
    · rw [List.filter_cons_of_neg (by simp [hx]),
        List.find?_cons_of_neg _ (by simp [hx]; exact fun hq => h hq.symm), ih]
    · rw [List.filter_cons_of_pos (by simp [hx])]
      by_cases hxq : x.1 = q
      · rw [List.find?_cons_of_pos _ (by simp [hxq]), List.find?_cons_of_pos _ (by simp [hxq])]
      · rw [List.find?_cons_of_neg _ (by simp [hxq]), List.find?_cons_of_neg _ (by simp [hxq]),
          ih]

theorem FS.sizeOnDisk?_writeFile_ne (fs : FS) (p : FPath) (n : Nat) (q : FPath)
    (h : q ≠ p) : (fs.writeFile p n).sizeOnDisk? q = fs.sizeOnDisk? q := by
  unfold FS.sizeOnDisk? FS.writeFile
  simp only
  rw [List.find?_cons_of_neg _ (by simp; exact fun hq => h hq.symm), find?_filter_ne _ _ _ h]

theorem afterExec_sizeOnDisk?_ne (fs : FS) (p : FPath) (r : TranscodeResult) (q : FPath)
    (h : q ≠ p) : (afterExec fs p r).sizeOnDisk? q = fs.sizeOnDisk? q := by
  unfold afterExec
  cases r.written with
  | some n => exact FS.sizeOnDisk?_writeFile_ne _ _ _ _ h
  | none => rfl

theorem unlinkIfExists_isFile_self (fs : FS) (p : FPath) :
    (unlinkIfExists fs p).isFile p = false := by
  unfold unlinkIfExists
  split
  · exact FS.isFile_unlink_self _ _
  · rename_i h
    exact Bool.eq_false_iff.mpr h

theorem unlinkIfExists_isFile_ne (fs : FS) (p q : FPath) (h : q ≠ p) :
    (unlinkIfExists fs p).isFile q = fs.isFile q := by
  unfold unlinkIfExists
  split
  · exact FS.isFile_unlink_ne _ _ _ h
  · rfl

theorem unlinkIfExists_isFile_false (fs : FS) (p q : FPath) (h : fs.isFile q = false) :
    (unlinkIfExists fs p).isFile q = false := by
  unfold unlinkIfExists
  split
  · exact FS.isFile_unlink_of_eq_false _ _ _ h
  · exact h

theorem cleanupParts_isFile_p1 (fs : FS) (p1 p2 : FPath) :
    (cleanupParts fs p1 p2).isFile p1 = false := by
  unfold cleanupParts
  exact unlinkIfExists_isFile_false _ _ _ (unlinkIfExists_isFile_self fs p1)

theorem cleanupParts_isFile_p2 (fs : FS) (p1 p2 : FPath) :
    (cleanupParts fs p1 p2).isFile p2 = false := by
  unfold cleanupParts
  exact unlinkIfExists_isFile_self _ _

theorem cleanupParts_isFile_ne (fs : FS) (p1 p2 q : FPath) (h1 : q ≠ p1) (h2 : q ≠ p2) :
    (cleanupParts fs p1 p2).isFile q = fs.isFile q := by
  unfold cleanupParts
  rw [unlinkIfExists_isFile_ne _ _ _ h2, unlinkIfExists_isFile_ne _ _ _ h1]

theorem get_file_size_mb_gt_iff (sz : Nat) (limit : ℚ) :
    get_file_size_mb sz > limit ↔ limit * (1024 * 1024) < (sz : ℚ) := by
  unfold get_file_size_mb
  rw [gt_iff_lt, lt_div_iff₀ (by norm_num)]

theorem mem_scanVideos_iff (folder : FPath) (limit : ℚ) (l : List (FPath × Nat))
    (p : FPath) (m : ℚ) :
    (p, m) ∈ scanVideos folder limit l ↔
      ∃ sz, (p, sz) ∈ l ∧ pathUnder folder p = true ∧ isVideoFile (nameOf p) = true ∧
        get_file_size_mb sz > limit ∧ m = get_file_size_mb sz := by
  induction l with
  | nil => simp [scanVideos]
  | cons e rest ih =>
    unfold scanVideos
    split
    · rename_i hc
      rw [Bool.and_eq_true] at hc
      rw [List.mem_cons, ih]
      constructor
      · rintro (hpm | ⟨sz, hmem, h1, h2, h3, h4⟩)
        · rw [Prod.mk.injEq] at hpm
          refine ⟨e.2, ?_, ?_, ?_, hc.2, hpm.2⟩
          · rw [hpm.1]
            exact List.mem_cons_self _ _
          · rw [hpm.1]
            exact hc.1.1
          · rw [hpm.1]
            exact hc.1.2
        · exact ⟨sz, List.mem_cons_of_mem _ hmem, h1, h2, h3, h4⟩
      · rintro ⟨sz, hmem, h1, h2, h3, h4⟩
        rcases List.mem_cons.mp hmem with hpe | hrest
        · left
          have he1 : p = e.1 := congrArg Prod.fst hpe
          have he2 : sz = e.2 := congrArg Prod.snd hpe
          rw [Prod.mk.injEq]
          exact ⟨he1, by rw [h4, he2]⟩
        · right
          exact ⟨sz, hrest, h1, h2, h3, h4⟩
    · rename_i hc
      rw [not_and_or, Bool.and_eq_true, not_and_or] at hc
      rw [ih]
      constructor
      · rintro ⟨sz, hmem, h1, h2, h3, h4⟩
        exact ⟨sz, List.mem_cons_of_mem _ hmem, h1, h2, h3, h4⟩
      · rintro ⟨sz, hmem, h1, h2, h3, h4⟩
        rcases List.mem_cons.mp hmem with hpe | hrest
        · exfalso
          have he1 : p = e.1 := congrArg Prod.fst hpe
          have he2 : sz = e.2 := congrArg Prod.snd hpe
          rcases hc with (hc | hc) | hc
          · exact hc (by rw [← he1]; exact h1)
          · exact hc (by rw [← he1]; exact h2)
          · exact hc (by rw [← he2]; exact h3)
        · exact ⟨sz, hrest, h1, h2, h3, h4⟩

theorem mem_candPaths_iff (fs : FS) (folder : FPath) (limit : ℚ) (p : FPath) :
    p ∈ (scanCandidates fs folder limit).map Prod.fst ↔
      ∃ sz, (p, sz) ∈ fs.files ∧ pathUnder folder p = true ∧
        isVideoFile (nameOf p) = true ∧ get_file_size_mb sz > limit := by
  unfold scanCandidates
  rw [List.mem_map]
  constructor
  · rintro ⟨⟨q, m⟩, hmem, hq⟩
    rcases (mem_scanVideos_iff folder limit fs.files q m).mp hmem with
      ⟨sz, h0, h1, h2, h3, _⟩
    cases hq
    exact ⟨sz, h0, h1, h2, h3⟩
  · rintro ⟨sz, h0, h1, h2, h3⟩
    exact ⟨(p, get_file_size_mb sz),
      (mem_scanVideos_iff folder limit fs.files p _).mpr ⟨sz, h0, h1, h2, h3, rfl⟩, rfl⟩

end VideoSplitter

namespace VideoSplitter

theorem scanVideos_nil (folder : FPath) (limit : ℚ) : scanVideos folder limit [] = [] := rfl

theorem scanVideos_cons_pos (folder : FPath) (limit : ℚ) (e : FPath × Nat)
    (rest : List (FPath × Nat))
    (h1 : (pathUnder folder e.1 && isVideoFile (nameOf e.1)) = true)
    (h2 : get_file_size_mb e.2 > limit) :
    scanVideos folder limit (e :: rest) =
      (e.1, get_file_size_mb e.2) :: scanVideos folder limit rest := by
  simp only [scanVideos]
  rw [if_pos ⟨h1, h2⟩]

theorem scanVideos_cons_negSize (folder : FPath) (limit : ℚ) (e : FPath × Nat)
    (rest : List (FPath × Nat)) (h : ¬ get_file_size_mb e.2 > limit) :
    scanVideos folder limit (e :: rest) = scanVideos folder limit rest := by
  simp only [scanVideos]
  rw [if_neg (fun hc => h hc.2)]

end VideoSplitter

/-! Settlement of the claims. -/

namespace VideoSplitter

/-- C1: for a split job whose duration probe succeeds, if either trim
invocation exits non-zero then after the handler both part paths are
absent and the original file is still at its original path. -/
theorem c1_split_failure_atomic (w : SplitWorld) (fs : FS) (fp : FPath)
    (hdur : 0 < get_video_duration w fp)
    (hfail : (w.exec1 fp).ok = false ∨ (w.exec2 fp).ok = false)
    (horig : fs.isFile fp = true) :
    ∃ fs', split_video w fs fp = .ok (fs', false) ∧
      fs'.isFile (part1Path fp) = false ∧
      fs'.isFile (part2Path fp) = false ∧
      fs'.isFile fp = true := by
  have hfp1 : fp ≠ part1Path fp := fun h => part1Path_ne_self fp h.symm
  have hfp2 : fp ≠ part2Path fp := fun h => part2Path_ne_self fp h.symm
  have hnle : ¬ get_video_duration w fp ≤ 0 := not_le.mpr hdur
  cases hco : (w.exec1 fp).ok with
  | false =>
    refine ⟨cleanupParts (afterExec fs (part1Path fp) (w.exec1 fp)) (part1Path fp)
        (part2Path fp), ?_, ?_, ?_, ?_⟩
    · simp only [split_video]
      rw [if_neg hnle, hco, if_pos rfl]
    · exact cleanupParts_isFile_p1 _ _ _
    · exact cleanupParts_isFile_p2 _ _ _
    · rw [cleanupParts_isFile_ne _ _ _ _ hfp1 hfp2, afterExec_isFile_ne _ _ _ _ hfp1]
      exact horig
  | true =>
    have h2 : (w.exec2 fp).ok = false := by
      rcases hfail with h | h
      · rw [hco] at h
        cases h
      · exact h
    refine ⟨cleanupParts (afterExec (afterExec fs (part1Path fp) (w.exec1 fp))
        (part2Path fp) (w.exec2 fp)) (part1Path fp) (part2Path fp), ?_, ?_, ?_, ?_⟩
    · simp only [split_video]
      rw [if_neg hnle, hco, h2]
      rw [if_neg (by simp), if_pos rfl]
    · exact cleanupParts_isFile_p1 _ _ _
    · exact cleanupParts_isFile_p2 _ _ _
    · rw [cleanupParts_isFile_ne _ _ _ _ hfp1 hfp2, afterExec_isFile_ne _ _ _ _ hfp2,
        afterExec_isFile_ne _ _ _ _ hfp1]
      exact horig

/-- C1 witness: the theorem applied to the concrete C1 scenario. -/
theorem c1_split_failure_atomic_witness :
    0 < get_video_duration c1World ["root", "a.mp4"] ∧
    ∃ fs', split_video c1World c1FS ["root", "a.mp4"] = .ok (fs', false) ∧
      fs'.isFile (part1Path ["root", "a.mp4"]) = false ∧
      fs'.isFile (part2Path ["root", "a.mp4"]) = false ∧
      fs'.isFile ["root", "a.mp4"] = true :=
  ⟨by decide,
   c1_split_failure_atomic c1World c1FS ["root", "a.mp4"] (by decide)
     (Or.inl (by decide)) (by decide)⟩

/-- C3: a split job whose probed duration is non-positive (which covers a
failed or unparseable probe, returning 0) fails before any invocation:
the filesystem is returned untouched and the batch moves on to the
remaining candidates. -/
theorem c3_unsplittable_no_write (w : SplitWorld) (fs : FS) (fp : FPath)
    (rest : List (FPath × ℚ)) (m : ℚ)
    (hdur : get_video_duration w fp ≤ 0) :
    split_video w fs fp = .ok (fs, false) ∧
    processAll w fs ((fp, m) :: rest) = processAll w fs rest ∧
    (w.probe fp = .failure → get_video_duration w fp = 0) := by
  have h1 : split_video w fs fp = .ok (fs, false) := by
    simp only [split_video]
    rw [if_pos hdur]
  refine ⟨h1, ?_, ?_⟩
  · simp only [processAll]
    rw [h1]
  · intro hp
    simp only [get_video_duration]
    rw [hp]

/-- C3 witness: the theorem applied to the concrete C3 scenario. -/
theorem c3_unsplittable_no_write_witness :
    get_video_duration c3World ["root", "a.mp4"] ≤ 0 ∧
    split_video c3World c3FS ["root", "a.mp4"] = .ok (c3FS, false) :=
  ⟨by decide,
   (c3_unsplittable_no_write c3World c3FS ["root", "a.mp4"] [] 300 (by decide)).1⟩

/-- C8: a file is yielded as a Split candidate exactly when it is a
regular file reached by the recursive walk under the root, its
lowercased extension is allowlisted, and its byte size exceeds
`threshold_MB * 1024 * 1024`; a file of exactly the default threshold
size is excluded. -/
theorem c8_split_candidate_iff (fs : FS) (folder : FPath) (limitMB : ℚ) (p : FPath) :
    (p ∈ (scanCandidates fs folder limitMB).map Prod.fst ↔
      ∃ sz, (p, sz) ∈ fs.files ∧ pathUnder folder p = true ∧
        isVideoFile (nameOf p) = true ∧ limitMB * (1024 * 1024) < (sz : ℚ)) ∧
    get_file_size_mb (200 * 1024 * 1024) ≤ SIZE_LIMIT_MB := by
  constructor
  · rw [mem_candPaths_iff]
    constructor
    · rintro ⟨sz, h0, h1, h2, h3⟩
      exact ⟨sz, h0, h1, h2, (get_file_size_mb_gt_iff sz limitMB).mp h3⟩
    · rintro ⟨sz, h0, h1, h2, h3⟩
      exact ⟨sz, h0, h1, h2, (get_file_size_mb_gt_iff sz limitMB).mpr h3⟩
  · unfold get_file_size_mb SIZE_LIMIT_MB
    norm_num

/-- C10: the candidate list is materialised from the filesystem as it is
when the scan runs, so a path that holds no file then — in particular
any fresh part file or archived original the run creates later — is not
among the run's candidates, whatever its name or size. -/
theorem c10_candidates_preexisting (fs : FS) (folder : FPath) (limit : ℚ) (p : FPath)
    (hnew : fs.isFile p = false) :
    p ∉ (scanCandidates fs folder limit).map Prod.fst := by
  intro hmem
  rcases (mem_candPaths_iff fs folder limit p).mp hmem with ⟨sz, hsz, _, _, _⟩
  have hfile : fs.isFile p = true := (FS.isFile_iff_exists fs p).mpr ⟨sz, hsz⟩
  rw [hnew] at hfile
  cases hfile

/-- C10 witness: the fresh part path of the C10 scenario is not a file
initially, hence not a candidate of the run. -/
theorem c10_candidates_preexisting_witness :
    c10FS.isFile ["root", "a_part1.mp4"] = false ∧
    ["root", "a_part1.mp4"] ∉ (scanCandidates c10FS ["root"] SIZE_LIMIT_MB).map Prod.fst :=
  ⟨by decide,
   c10_candidates_preexisting c10FS ["root"] SIZE_LIMIT_MB ["root", "a_part1.mp4"] (by decide)⟩

end VideoSplitter

namespace EnhanceVideo

/-- C5: the filter chain always lists the scale stage, then the sharpen
stage with chroma amount fixed at the literal 0, then — exactly when
denoise is enabled — the denoise stage with the luma/chroma pair
duplicated; for the 3840x2160 lanczos profile with sharpen amount 1.0
and denoise disabled the chain is the exact scenario string. -/
theorem c5_filter_chain_order (inF outF : FPath) (exts : List String)
    (W H : Nat) (alg amt lx ly dl dc suf fmt : String) :
    (build_filter_chain ⟨inF, outF, W, H, alg, amt, lx, ly, false, dl, dc, exts, suf, fmt⟩ =
      ("scale=" ++ toString W ++ ":" ++ toString H ++ ":flags=" ++ alg ++ ",") ++
        ("unsharp=" ++ lx ++ ":" ++ ly ++ ":" ++ amt ++ ":" ++ lx ++ ":" ++ ly ++ ":0")) ∧
    (build_filter_chain ⟨inF, outF, W, H, alg, amt, lx, ly, true, dl, dc, exts, suf, fmt⟩ =
      ((("scale=" ++ toString W ++ ":" ++ toString H ++ ":flags=" ++ alg ++ ",") ++
        ("unsharp=" ++ lx ++ ":" ++ ly ++ ":" ++ amt ++ ":" ++ lx ++ ":" ++ ly ++ ":0")) ++
        ",") ++
        ("hqdn3d=" ++ dl ++ ":" ++ dc ++ ":" ++ dl ++ ":" ++ dc)) ∧
    (build_filter_chain ⟨inF, outF, 3840, 2160, "lanczos", "1.0", lx, ly, false, dl, dc,
        exts, suf, fmt⟩ =
      "scale=3840:2160:flags=lanczos," ++
        ("unsharp=" ++ lx ++ ":" ++ ly ++ ":" ++ "1.0" ++ ":" ++ lx ++ ":" ++ ly ++ ":0")) := by
  refine ⟨rfl, rfl, ?_⟩
  show ("scale=" ++ toString (3840 : Nat) ++ ":" ++ toString (2160 : Nat) ++ ":flags=" ++
      "lanczos" ++ ",") ++
      ("unsharp=" ++ lx ++ ":" ++ ly ++ ":" ++ "1.0" ++ ":" ++ lx ++ ":" ++ ly ++ ":0") = _
  rw [show ("scale=" ++ toString (3840 : Nat) ++ ":" ++ toString (2160 : Nat) ++ ":flags=" ++
      "lanczos" ++ ",") = "scale=3840:2160:flags=lanczos," from rfl]

/-- C6: the enhance executor reports success exactly when the transcoder
exits 0, and on a non-zero exit the printed diagnostic is the final 500
characters of the captured stderr (all of it when shorter). -/
theorem c6_enhance_exit_code (w : EnhanceWorld) (fs : FS) (input output : FPath) :
    ((enhance_video w fs input output).2.1 = true ↔ (w.proc input).returncode = 0) ∧
    ((w.proc input).returncode ≠ 0 →
      (enhance_video w fs input output).2.2 =
        some ((w.proc input).stderr.drop ((w.proc input).stderr.length - 500))) := by
  have hsh : ∀ s : List Char, stderrShown s = s.drop (s.length - 500) := by
    intro s
    unfold stderrShown
    split
    · rfl
    · rename_i h
      rw [Nat.sub_eq_zero_of_le (Nat.le_of_not_lt h), List.drop_zero]
  constructor
  · simp only [enhance_video]
    split
    · rename_i h
      simp [h]
    · rename_i h
      simp [h]
  · intro hne
    simp only [enhance_video]
    rw [if_neg hne, hsh]

/-- C6 witness: the theorem applied to the concrete C6 scenario. -/
theorem c6_enhance_exit_code_witness :
    (c6World.proc ["in", "a.mp4"]).returncode ≠ 0 ∧
    (enhance_video c6World c6FS ["in", "a.mp4"] ["out", "a.mp4"]).2.2 =
      some ((c6World.proc ["in", "a.mp4"]).stderr.drop
        ((c6World.proc ["in", "a.mp4"]).stderr.length - 500)) :=
  ⟨by decide,
   (c6_enhance_exit_code c6World c6FS ["in", "a.mp4"] ["out", "a.mp4"]).2 (by decide)⟩

/-- C9 counterexample: in the concrete C9 scenario the enhance job fails
(fail count 1) yet the partial output file is still present afterwards —
no cleanup deletes it. -/
theorem c9_enhance_cleanup_counterexample :
    (scan_and_enhance c9Cfg c9World c9FS).2.2 = 1 ∧
    (scan_and_enhance c9Cfg c9World c9FS).1.isFile ["out", "a_enhanced.mp4"] = true := by
  constructor
  · rfl
  · rfl

/-- C9 (amended): on a failed enhance job the executor performs no
cleanup at all: the job's output path holds a file afterwards exactly
when the transcoder left one there or one already existed. -/
theorem c9_enhance_no_cleanup (w : EnhanceWorld) (fs : FS) (input output : FPath)
    (hfail : (w.proc input).returncode ≠ 0) :
    (enhance_video w fs input output).2.1 = false ∧
    ((enhance_video w fs input output).1.isFile output = true ↔
      (w.written input).isSome = true ∨ fs.isFile output = true) := by
  constructor
  · simp only [enhance_video]
    rw [if_neg hfail]
  · simp only [enhance_video]
    cases hw : w.written input with
    | some n =>
      rw [if_neg hfail]
      simp [FS.isFile_writeFile_self]
    | none =>
      rw [if_neg hfail]
      simp

/-- C9 witness: the amended theorem applied to the concrete C9 scenario. -/
theorem c9_enhance_no_cleanup_witness :
    (c9World.proc ["in", "a.mp4"]).returncode ≠ 0 ∧
    ((enhance_video c9World c9FS ["in", "a.mp4"] ["out", "a_enhanced.mp4"]).1.isFile
        ["out", "a_enhanced.mp4"] = true ↔
      (c9World.written ["in", "a.mp4"]).isSome = true ∨
        c9FS.isFile ["out", "a_enhanced.mp4"] = true) :=
  ⟨by decide,
   (c9_enhance_no_cleanup c9World c9FS ["in", "a.mp4"] ["out", "a_enhanced.mp4"]
     (by decide)).2⟩

end EnhanceVideo

namespace VideoSplitter

/-- C2 counterexample: in the concrete C2 scenario the split run
succeeds, yet an immediate re-scan of the same root rediscovers the
original at its archived location as a new Split candidate — the
recursive scan does not skip the archive folder. -/
theorem c2_rescan_counterexample :
    scan_and_split c2World c2FS ["root"] SIZE_LIMIT_MB = .ok c2FSAfter ∧
    ["root", "原檔_超過200MB", "a.mp4"] ∈
      (scanCandidates c2FSAfter ["root"] SIZE_LIMIT_MB).map Prod.fst := by
  have hbig : get_file_size_mb 314572800 > SIZE_LIMIT_MB := by
    rw [get_file_size_mb_gt_iff]
    norm_num [SIZE_LIMIT_MB]
  have hsmall : ¬ get_file_size_mb 157286400 > SIZE_LIMIT_MB := by
    rw [get_file_size_mb_gt_iff]
    norm_num [SIZE_LIMIT_MB]
  constructor
  · have hscan : scanCandidates c2FS ["root"] SIZE_LIMIT_MB =
        [(["root", "a.mp4"], get_file_size_mb 314572800)] := by
      show scanVideos ["root"] SIZE_LIMIT_MB c2FS.files = _
      rw [show c2FS.files = [(["root", "a.mp4"], 314572800)] from rfl,
        scanVideos_cons_pos _ _ _ _ (by decide) hbig, scanVideos_nil]
    unfold scan_and_split
    rw [if_neg (by decide), hscan]
    rfl
  · have h2 : scanCandidates c2FSAfter ["root"] SIZE_LIMIT_MB =
        [(["root", "原檔_超過200MB", "a.mp4"], get_file_size_mb 314572800)] := by
      show scanVideos ["root"] SIZE_LIMIT_MB c2FSAfter.files = _
      rw [show c2FSAfter.files =
          [(["root", "原檔_超過200MB", "a.mp4"], 314572800),
           (["root", "a_part2.mp4"], 157286400),
           (["root", "a_part1.mp4"], 157286400)] from rfl,
        scanVideos_cons_pos _ _ _ _ (by decide) hbig,
        scanVideos_cons_negSize _ _ _ _ hsmall,
        scanVideos_cons_negSize _ _ _ _ hsmall, scanVideos_nil]
    rw [h2]
    simp

/-- C2 (amended): after a successful split job the original path is no
longer a candidate and, provided each part's size does not exceed the
threshold, neither part path is; but the archived original IS
rediscovered as a candidate by a re-scan, because the recursive scan
does not skip the archive folder by path. -/
theorem c2_rescan_amended (w : SplitWorld) (fs : FS) (root fp : FPath) (limit : ℚ)
    (sz n1 n2 : Nat)
    (horig : fs.sizeOnDisk? fp = some sz)
    (hroot : pathUnder root fp = true)
    (hext : isVideoFile (nameOf fp) = true)
    (hbig : get_file_size_mb sz > limit)
    (hdur : 0 < get_video_duration w fp)
    (h1 : w.exec1 fp = ⟨true, some n1⟩)
    (h2 : w.exec2 fp = ⟨true, some n2⟩)
    (hmk : w.mkdirOk fp = true) (hmv : w.moveOk fp = true)
    (hp1 : ¬ get_file_size_mb n1 > limit) (hp2 : ¬ get_file_size_mb n2 > limit) :
    ∃ fs', split_video w fs fp = .ok (fs', true) ∧
      fp ∉ (scanCandidates fs' root limit).map Prod.fst ∧
      part1Path fp ∉ (scanCandidates fs' root limit).map Prod.fst ∧
      part2Path fp ∉ (scanCandidates fs' root limit).map Prod.fst ∧
      archivePath fp ∈ (scanCandidates fs' root limit).map Prod.fst := by
  have hnle : ¬ get_video_duration w fp ≤ 0 := not_le.mpr hdur
  have hok1 : (w.exec1 fp).ok = true := by rw [h1]
  have hok2 : (w.exec2 fp).ok = true := by rw [h2]
  have hw1 : (w.exec1 fp).written = some n1 := by rw [h1]
  have hw2 : (w.exec2 fp).written = some n2 := by rw [h2]
  have hfp1 : fp ≠ part1Path fp := fun h => part1Path_ne_self fp h.symm
  have hfp2 : fp ≠ part2Path fp := fun h => part2Path_ne_self fp h.symm
  have hne12 : part1Path fp ≠ part2Path fp := part1Path_ne_part2Path fp
  have hfs1 : afterExec fs (part1Path fp) (w.exec1 fp) =
      fs.writeFile (part1Path fp) n1 := by
    unfold afterExec
    rw [hw1]
  have hfs2 : afterExec (afterExec fs (part1Path fp) (w.exec1 fp)) (part2Path fp)
      (w.exec2 fp) =
      (afterExec fs (part1Path fp) (w.exec1 fp)).writeFile (part2Path fp) n2 := by
    unfold afterExec
    rw [hw2]
  have hs1 : (afterExec (afterExec fs (part1Path fp) (w.exec1 fp)) (part2Path fp)
      (w.exec2 fp)).sizeOnDisk? (part1Path fp) = some n1 := by
    rw [afterExec_sizeOnDisk?_ne _ _ _ _ hne12]
    exact afterExec_isSome_written _ _ _ _ hw1
  have hs2 : (afterExec (afterExec fs (part1Path fp) (w.exec1 fp)) (part2Path fp)
      (w.exec2 fp)).sizeOnDisk? (part2Path fp) = some n2 :=
    afterExec_isSome_written _ _ _ _ hw2
  have hsfp : ((afterExec (afterExec fs (part1Path fp) (w.exec1 fp)) (part2Path fp)
      (w.exec2 fp)).mkdir (archiveDirPath fp)).sizeOnDisk? fp = some sz := by
    rw [FS.sizeOnDisk?_mkdir, afterExec_sizeOnDisk?_ne _ _ _ _ hfp2,
      afterExec_sizeOnDisk?_ne _ _ _ _ hfp1]
    exact horig
  refine ⟨((((afterExec (afterExec fs (part1Path fp) (w.exec1 fp)) (part2Path fp)
      (w.exec2 fp)).mkdir (archiveDirPath fp)).unlink fp).writeFile (archivePath fp) sz),
    ?_, ?_, ?_, ?_, ?_⟩
  · simp only [split_video]
    rw [if_neg hnle, hok1]
    rw [if_neg (by simp)]
    rw [hok2]
    rw [if_neg (by simp)]
    rw [hs1, hs2]
    rw [if_neg (by simp)]
    rw [hmk]
    rw [if_neg (by simp)]
    rw [hmv]
    rw [if_neg (by simp)]
    rw [hsfp]
    rw [if_neg (by simp)]
    rw [FS.move_eq _ _ _ _ hsfp]
  · intro hmem
    rcases (mem_candPaths_iff _ _ _ _).mp hmem with ⟨m, hm, _, _, _⟩
    rcases (FS.mem_writeFile_iff _ _ _ _ _).mp hm with ⟨hq, _⟩ | ⟨hm2, _⟩
    · exact archivePath_ne_self fp hq.symm
    · exact ((FS.mem_unlink_iff _ _ _ _).mp hm2).2 rfl
  · intro hmem
    rcases (mem_candPaths_iff _ _ _ _).mp hmem with ⟨m, hm, _, _, hgt⟩
    rcases (FS.mem_writeFile_iff _ _ _ _ _).mp hm with ⟨hq, _⟩ | ⟨hm2, _⟩
    · exact archivePath_ne_part1 fp hq.symm
    · have hm3 := ((FS.mem_unlink_iff _ _ _ _).mp hm2).1
      have hm4 : (part1Path fp, m) ∈ (afterExec (afterExec fs (part1Path fp) (w.exec1 fp))
          (part2Path fp) (w.exec2 fp)).files := by
        rw [← FS.files_mkdir _ (archiveDirPath fp)]
        exact hm3
      rw [hfs2] at hm4
      rcases (FS.mem_writeFile_iff _ _ _ _ _).mp hm4 with ⟨hq2, hmn⟩ | ⟨hm5, _⟩
      · exact absurd hq2 hne12
      · rw [hfs1] at hm5
        rcases (FS.mem_writeFile_iff _ _ _ _ _).mp hm5 with ⟨_, hmn⟩ | ⟨_, hq3⟩
        · rw [hmn] at hgt
          exact hp1 hgt
        · exact hq3 rfl
  · intro hmem
    rcases (mem_candPaths_iff _ _ _ _).mp hmem with ⟨m, hm, _, _, hgt⟩
    rcases (FS.mem_writeFile_iff _ _ _ _ _).mp hm with ⟨hq, _⟩ | ⟨hm2, _⟩
    · exact archivePath_ne_part2 fp hq.symm
    · have hm3 := ((FS.mem_unlink_iff _ _ _ _).mp hm2).1
      have hm4 : (part2Path fp, m) ∈ (afterExec (afterExec fs (part1Path fp) (w.exec1 fp))
          (part2Path fp) (w.exec2 fp)).files := by
        rw [← FS.files_mkdir _ (archiveDirPath fp)]
        exact hm3
      rw [hfs2] at hm4
      rcases (FS.mem_writeFile_iff _ _ _ _ _).mp hm4 with ⟨_, hmn⟩ | ⟨_, hq3⟩
      · rw [hmn] at hgt
        exact hp2 hgt
      · exact hq3 rfl
  · have hfpne : fp ≠ [] := by
      intro h
      rw [h, pathUnder_nil] at hroot
      cases hroot
    have harchdec : archivePath fp = dirOf fp ++ [ARCHIVE_FOLDER_NAME, nameOf fp] := by
      unfold archivePath archiveDirPath
      rw [List.append_assoc]
      rfl
    have hunder : pathUnder root (archivePath fp) = true := by
      rw [harchdec]
      exact @pathUnder_snoc_extend root (dirOf fp) (nameOf fp)
        [ARCHIVE_FOLDER_NAME, nameOf fp] (by simp)
        (by rw [path_decomp hfpne]; exact hroot)
    have hname : nameOf (archivePath fp) = nameOf fp := by
      unfold archivePath
      exact nameOf_snoc _ _
    refine (mem_candPaths_iff _ _ _ _).mpr ⟨sz, ?_, hunder, ?_, hbig⟩
    · exact (FS.mem_writeFile_iff _ _ _ _ _).mpr (Or.inl ⟨rfl, rfl⟩)
    · rw [hname]
      exact hext

/-- C2 witness: the amended theorem applied to the concrete C2 scenario. -/
theorem c2_rescan_amended_witness :
    get_file_size_mb 314572800 > SIZE_LIMIT_MB ∧
    ∃ fs', split_video c2World c2FS ["root", "a.mp4"] = .ok (fs', true) ∧
      ["root", "a.mp4"] ∉ (scanCandidates fs' ["root"] SIZE_LIMIT_MB).map Prod.fst ∧
      part1Path ["root", "a.mp4"] ∉
        (scanCandidates fs' ["root"] SIZE_LIMIT_MB).map Prod.fst ∧
      part2Path ["root", "a.mp4"] ∉
        (scanCandidates fs' ["root"] SIZE_LIMIT_MB).map Prod.fst ∧
      archivePath ["root", "a.mp4"] ∈
        (scanCandidates fs' ["root"] SIZE_LIMIT_MB).map Prod.fst :=
  ⟨by rw [get_file_size_mb_gt_iff]; norm_num [SIZE_LIMIT_MB],
   c2_rescan_amended c2World c2FS ["root"] ["root", "a.mp4"] SIZE_LIMIT_MB
     314572800 157286400 157286400 (by decide) (by decide) (by decide)
     (by rw [get_file_size_mb_gt_iff]; norm_num [SIZE_LIMIT_MB]) (by decide)
     rfl rfl rfl rfl
     (by rw [get_file_size_mb_gt_iff]; norm_num [SIZE_LIMIT_MB])
     (by rw [get_file_size_mb_gt_iff]; norm_num [SIZE_LIMIT_MB])⟩

/-- C4 counterexample: in the concrete C4 scenario both trims of the
first candidate succeed but the archive folder cannot be created; the
resulting error is uncaught, so the run aborts — the original and both
parts remain, and the second candidate is never processed (no part file
of it is ever created). -/
theorem c4_archival_counterexample :
    exceptOk (scan_and_split c4World c4FS ["root"] SIZE_LIMIT_MB) = false ∧
    (fsOfResult (scan_and_split c4World c4FS ["root"] SIZE_LIMIT_MB)).isFile
      ["root", "a.mp4"] = true ∧
    (fsOfResult (scan_and_split c4World c4FS ["root"] SIZE_LIMIT_MB)).isFile
      ["root", "b_part1.mp4"] = false := by
  have hbig : get_file_size_mb 314572800 > SIZE_LIMIT_MB := by
    rw [get_file_size_mb_gt_iff]
    norm_num [SIZE_LIMIT_MB]
  have hscan : scanCandidates c4FS ["root"] SIZE_LIMIT_MB =
      [(["root", "a.mp4"], get_file_size_mb 314572800),
       (["root", "b.mp4"], get_file_size_mb 314572800)] := by
    show scanVideos ["root"] SIZE_LIMIT_MB c4FS.files = _
    rw [show c4FS.files = [(["root", "a.mp4"], 314572800), (["root", "b.mp4"], 314572800)]
        from rfl,
      scanVideos_cons_pos _ _ _ _ (by decide) hbig,
      scanVideos_cons_pos _ _ _ _ (by decide) hbig, scanVideos_nil]
  have hrun : scan_and_split c4World c4FS ["root"] SIZE_LIMIT_MB =
      .error (.osError, c4FSErr) := by
    unfold scan_and_split
    rw [if_neg (by decide), hscan]
    rfl
  rw [hrun]
  exact ⟨rfl, rfl, rfl⟩

/-- C4 (amended): when both trims of a split job succeed but the
archival step fails, the raised error is not caught by the job's
handler (which catches only transcoder errors): `split_video` ends in
an uncaught error carrying a filesystem in which the original AND both
part files are still present, and the batch loop aborts instead of
continuing with the remaining candidates. -/
theorem c4_archival_abort (w : SplitWorld) (fs : FS) (fp : FPath) (m : ℚ)
    (rest : List (FPath × ℚ)) (n1 n2 : Nat)
    (hdur : 0 < get_video_duration w fp)
    (h1 : w.exec1 fp = ⟨true, some n1⟩)
    (h2 : w.exec2 fp = ⟨true, some n2⟩)
    (horig : fs.isFile fp = true)
    (harch : w.mkdirOk fp = false ∨ w.moveOk fp = false) :
    ∃ fs', split_video w fs fp = .error (.osError, fs') ∧
      fs'.isFile fp = true ∧ fs'.isFile (part1Path fp) = true ∧
      fs'.isFile (part2Path fp) = true ∧
      processAll w fs ((fp, m) :: rest) = .error (.osError, fs') := by
  have hnle : ¬ get_video_duration w fp ≤ 0 := not_le.mpr hdur
  have hok1 : (w.exec1 fp).ok = true := by rw [h1]
  have hok2 : (w.exec2 fp).ok = true := by rw [h2]
  have hw1 : (w.exec1 fp).written = some n1 := by rw [h1]
  have hw2 : (w.exec2 fp).written = some n2 := by rw [h2]
  have hfp1 : fp ≠ part1Path fp := fun h => part1Path_ne_self fp h.symm
  have hfp2 : fp ≠ part2Path fp := fun h => part2Path_ne_self fp h.symm
  have hne12 : part1Path fp ≠ part2Path fp := part1Path_ne_part2Path fp
  have hs1 : (afterExec (afterExec fs (part1Path fp) (w.exec1 fp)) (part2Path fp)
      (w.exec2 fp)).sizeOnDisk? (part1Path fp) = some n1 := by
    rw [afterExec_sizeOnDisk?_ne _ _ _ _ hne12]
    exact afterExec_isSome_written _ _ _ _ hw1
  have hs2 : (afterExec (afterExec fs (part1Path fp) (w.exec1 fp)) (part2Path fp)
      (w.exec2 fp)).sizeOnDisk? (part2Path fp) = some n2 :=
    afterExec_isSome_written _ _ _ _ hw2
  have hfile0 : (afterExec (afterExec fs (part1Path fp) (w.exec1 fp)) (part2Path fp)
      (w.exec2 fp)).isFile fp = true := by
    rw [afterExec_isFile_ne _ _ _ _ hfp2, afterExec_isFile_ne _ _ _ _ hfp1]
    exact horig
  have hfile1 : (afterExec (afterExec fs (part1Path fp) (w.exec1 fp)) (part2Path fp)
      (w.exec2 fp)).isFile (part1Path fp) = true := by
    rw [afterExec_isFile_ne _ _ _ _ hne12]
    exact afterExec_isFile_written _ _ _ _ hw1
  have hfile2 : (afterExec (afterExec fs (part1Path fp) (w.exec1 fp)) (part2Path fp)
      (w.exec2 fp)).isFile (part2Path fp) = true :=
    afterExec_isFile_written _ _ _ _ hw2
  cases hmk : w.mkdirOk fp with
  | false =>
    have hsplit : split_video w fs fp = .error (.osError,
        afterExec (afterExec fs (part1Path fp) (w.exec1 fp)) (part2Path fp)
          (w.exec2 fp)) := by
      simp only [split_video]
      rw [if_neg hnle, hok1]
      rw [if_neg (by simp)]
      rw [hok2]
      rw [if_neg (by simp)]
      rw [hs1, hs2]
      rw [if_neg (by simp)]
      rw [hmk]
      rw [if_pos rfl]
    refine ⟨_, hsplit, hfile0, hfile1, hfile2, ?_⟩
    simp only [processAll]
    rw [hsplit]
  | true =>
    have hmv : w.moveOk fp = false := by
      rcases harch with h | h
      · rw [hmk] at h
        cases h
      · exact h
    have hsplit : split_video w fs fp = .error (.osError,
        (afterExec (afterExec fs (part1Path fp) (w.exec1 fp)) (part2Path fp)
          (w.exec2 fp)).mkdir (archiveDirPath fp)) := by
      simp only [split_video]
      rw [if_neg hnle, hok1]
      rw [if_neg (by simp)]
      rw [hok2]
      rw [if_neg (by simp)]
      rw [hs1, hs2]
      rw [if_neg (by simp)]
      rw [hmk]
      rw [if_neg (by simp)]
      rw [hmv]
      rw [if_pos rfl]
    refine ⟨_, hsplit, ?_, ?_, ?_, ?_⟩
    · rw [FS.isFile_mkdir]
      exact hfile0
    · rw [FS.isFile_mkdir]
      exact hfile1
    · rw [FS.isFile_mkdir]
      exact hfile2
    · simp only [processAll]
      rw [hsplit]

/-- C4 witness: the amended theorem applied to the concrete C4 scenario. -/
theorem c4_archival_abort_witness :
    0 < get_video_duration c4World ["root", "a.mp4"] ∧
    ∃ fs', split_video c4World c4FS ["root", "a.mp4"] = .error (.osError, fs') ∧
      fs'.isFile ["root", "a.mp4"] = true ∧
      fs'.isFile (part1Path ["root", "a.mp4"]) = true ∧
      fs'.isFile (part2Path ["root", "a.mp4"]) = true ∧
      processAll c4World c4FS ((["root", "a.mp4"], 300) ::
        [(["root", "b.mp4"], 300)]) = .error (.osError, fs') :=
  ⟨by decide,
   c4_archival_abort c4World c4FS ["root", "a.mp4"] 300 [(["root", "b.mp4"], 300)]
     10485760 10485760 (by decide) rfl rfl (by decide) (Or.inl rfl)⟩

/-- C7 counterexample: with the transcoder installed but the target
folder absent, the splitter reports the absence and exits 0 — not
non-zero as the claim requires. -/
theorem c7_exit_code_counterexample :
    main true c7World c7FS ["root"] = 0 ∧ c7FS.pathExists ["root"] = false :=
  ⟨rfl, rfl⟩

/-- C7 (amended): the splitter's exit code is 1 when the transcoder is
missing, and otherwise 0 exactly when no uncaught error aborts the run;
an absent root directory is reported and still exits 0, and per-file
failures never change the exit code; the enhancer exits 1 exactly when
the transcoder is missing. -/
theorem c7_exit_code_amended :
    (∀ (w : SplitWorld) (fs : FS) (target : FPath), main false w fs target = 1) ∧
    (∀ (w : SplitWorld) (fs : FS) (target : FPath),
      fs.pathExists target = false → main true w fs target = 0) ∧
    (∀ (w : SplitWorld) (fs : FS) (target : FPath),
      (main true w fs target = 0 ↔
        exceptOk (scan_and_split w fs target SIZE_LIMIT_MB) = true)) ∧
    (∀ (cfg : EnhanceVideo.Config) (w : EnhanceVideo.EnhanceWorld) (fs : FS),
      EnhanceVideo.main false cfg w fs = 1 ∧ EnhanceVideo.main true cfg w fs = 0) := by
  refine ⟨?_, ?_, ?_, ?_⟩
  · intro w fs target
    rfl
  · intro w fs target h
    unfold main
    rw [if_neg (by simp)]
    unfold scan_and_split
    rw [if_pos h]
  · intro w fs target
    unfold main
    rw [if_neg (by simp)]
    cases hres : scan_and_split w fs target SIZE_LIMIT_MB with
    | ok fs1 => simp [exceptOk]
    | error e => simp [exceptOk]
  · intro cfg w fs
    exact ⟨rfl, rfl⟩

/-- C7 witness: the amended theorem applied to concrete scenarios. -/
theorem c7_exit_code_amended_witness :
    c7FS.pathExists ["root"] = false ∧ main true c7World c7FS ["root"] = 0 ∧
    EnhanceVideo.main true EnhanceVideo.c7Cfg EnhanceVideo.c7EnhWorld
      EnhanceVideo.c7EnhFS = 0 :=
  ⟨by decide, c7_exit_code_amended.2.1 c7World c7FS ["root"] (by decide),
   (c7_exit_code_amended.2.2.2 EnhanceVideo.c7Cfg EnhanceVideo.c7EnhWorld
     EnhanceVideo.c7EnhFS).2⟩

end VideoSplitter

